import Mathlib

/-!
Verification of the cRandom distribution library (crandom.c / crandom.h).

The library transforms a stream of uniform draws in [0,1) into samples of
named probability distributions.  We embed each C function shallowly: C
`double` becomes `ℝ`, C `int` becomes `ℤ` (loop counters become `ℕ`), a
`cRandom` source becomes a pair of an infinite draw stream `ℕ → ℝ` and a
cursor `ℕ`; each sampler returns its sample together with the advanced
cursor, so that draw consumption is part of the model.  The unbounded
`while` loop of `Poisson` is modelled with explicit fuel returning
`Option`.
-/

noncomputable section

namespace CRandom

/-- A uniform source stream: position `n` holds the draw returned by the
`n`-th call to `next`. -/
abbrev UStream := ℕ → ℝ

/-- Semantics of the C cast `(int) x` from `double`: truncation toward
zero. -/
def cIntCast (x : ℝ) : ℤ :=
  if 0 ≤ x then ⌊x⌋ else ⌈x⌉

/-- Embedding of `bernoulli` (crandom.c line 103):
`return (crandom->next(crandom) > p);`. -/
def bernoulli (p : ℝ) (s : UStream) (c : ℕ) : ℤ × ℕ :=
  ((if s c > p then 1 else 0), c + 1)

/-- Loop body of `binomial` (crandom.c line 124):
`x += (crandom->next(crandom) > p);` repeated. -/
def binomialGo (p : ℝ) (s : UStream) : ℕ → ℕ → ℤ → ℤ × ℕ
  | 0, c, x => (x, c)
  | n + 1, c, x => binomialGo p s n (c + 1) (x + if s c > p then 1 else 0)

/-- Embedding of `binomial` (crandom.c line 118). -/
def binomial (n : ℕ) (p : ℝ) (s : UStream) (c : ℕ) : ℤ × ℕ :=
  binomialGo p s n c 0

/-- Embedding of `equilikely` (crandom.c line 139):
`return (a + (int) ((b - a + 1) * crandom->next(crandom)));`. -/
def equilikely (a b : ℤ) (s : UStream) (c : ℕ) : ℤ × ℕ :=
  (a + cIntCast (((b - a + 1 : ℤ) : ℝ) * s c), c + 1)

/-- Embedding of `geometric` (crandom.c line 154):
`return ((int) (log(1.0 - crandom->next(crandom)) / log(p)));`. -/
def geometric (p : ℝ) (s : UStream) (c : ℕ) : ℤ × ℕ :=
  (cIntCast (Real.log (1 - s c) / Real.log p), c + 1)

/-- Loop body of `pascal` (crandom.c line 177), with the precomputed
`log_p` threaded through:
`x += ((int) (log(1.0 - crandom->next(crandom)) / log_p));`. -/
def pascalGo (log_p : ℝ) (s : UStream) : ℕ → ℕ → ℤ → ℤ × ℕ
  | 0, c, x => (x, c)
  | n + 1, c, x =>
      pascalGo log_p s n (c + 1) (x + cIntCast (Real.log (1 - s c) / log_p))

/-- Embedding of `pascal` (crandom.c line 169); `const double log_p = log(p);`
is evaluated once before the loop. -/
def pascal (n : ℕ) (p : ℝ) (s : UStream) (c : ℕ) : ℤ × ℕ :=
  pascalGo (Real.log p) s n c 0

/-- The sum of `n` successive calls to `geometric`, as the spec describes
`pascal`: each call consumes its own draws, results are added. -/
def geometricIter : ℕ → ℝ → UStream → ℕ → ℤ × ℕ
  | 0, _, _, c => (0, c)
  | n + 1, p, s, c =>
      ((geometric p s c).1 + (geometricIter n p s (geometric p s c).2).1,
        (geometricIter n p s (geometric p s c).2).2)

/-- The `while (t < m)` loop of `Poisson` (crandom.c lines 197-200), with
explicit fuel: state is the accumulator `t`, the counter `x` and the
cursor; each iteration draws once, does `t -= m * log(1.0 - u)` and
`x++`.  `none` means the loop did not finish within the fuel. -/
def PoissonGo (m : ℝ) (s : UStream) : ℕ → ℝ → ℤ → ℕ → Option (ℤ × ℕ)
  | 0, t, x, c => if t < m then none else some (x, c)
  | fuel + 1, t, x, c =>
      if t < m then
        PoissonGo m s fuel (t - m * Real.log (1 - s c)) (x + 1) (c + 1)
      else some (x, c)

/-- Embedding of `Poisson` (crandom.c line 191): `t` starts at `0.0`, the
counter `x` starts at `-1`. -/
def Poisson (fuel : ℕ) (m : ℝ) (s : UStream) (c : ℕ) : Option (ℤ × ℕ) :=
  PoissonGo m s fuel 0 (-1) c

/-- The Poisson accumulator after `k` draws taken from cursor `c`: the sum
of `-m * log(1 - u)` over those draws. -/
def poissonAcc (m : ℝ) (s : UStream) : ℕ → ℕ → ℝ
  | _, 0 => 0
  | c, k + 1 => -(m * Real.log (1 - s c)) + poissonAcc m s (c + 1) k

/-- Embedding of `uniform` (crandom.c line 219):
`return a + (b - a) * crandom->next(crandom);`. -/
def uniform (a b : ℝ) (s : UStream) (c : ℕ) : ℝ × ℕ :=
  (a + (b - a) * s c, c + 1)

/-- Embedding of `exponential` (crandom.c line 234):
`return - m * log(1.0 - crandom->next(crandom));`. -/
def exponential (m : ℝ) (s : UStream) (c : ℕ) : ℝ × ℕ :=
  (-m * Real.log (1 - s c), c + 1)

/-- Loop body of `erlang` (crandom.c line 257):
`x -= b * log(1.0 - crandom->next(crandom));` repeated. -/
def erlangGo (b : ℝ) (s : UStream) : ℕ → ℕ → ℝ → ℝ × ℕ
  | 0, c, x => (x, c)
  | n + 1, c, x => erlangGo b s n (c + 1) (x - b * Real.log (1 - s c))

/-- Embedding of `erlang` (crandom.c line 249). -/
def erlang (n : ℕ) (b : ℝ) (s : UStream) (c : ℕ) : ℝ × ℕ :=
  erlangGo b s n c 0

/-- Coefficient `p0` of the Odeh-Evans approximation (crandom.c line 277). -/
def p0 : ℝ := 0.322232431088

/-- Coefficient `p1` (crandom.c line 278). -/
def p1 : ℝ := 1.0

/-- Coefficient `p2` (crandom.c line 279). -/
def p2 : ℝ := 0.342242088547

/-- Coefficient `p3` (crandom.c line 280), written `0.204231210245e-1` in
the source. -/
def p3 : ℝ := 0.204231210245e-1

/-- Coefficient `p4` (crandom.c line 281), written `0.453642210148e-4` in
the source. -/
def p4 : ℝ := 0.453642210148e-4

/-- Coefficient `q0` (crandom.c line 277). -/
def q0 : ℝ := 0.099348462606

/-- Coefficient `q1` (crandom.c line 278). -/
def q1 : ℝ := 0.588581570495

/-- Coefficient `q2` (crandom.c line 279). -/
def q2 : ℝ := 0.531103462366

/-- Coefficient `q3` (crandom.c line 280). -/
def q3 : ℝ := 0.103537752850

/-- Coefficient `q4` (crandom.c line 281), written `0.385607006340e-2` in
the source. -/
def q4 : ℝ := 0.385607006340e-2

/-- The branch of `normal` computing `t` (crandom.c lines 287-290):
`if (u < 0.5) t = sqrt(-2.0 * log(u)); else t = sqrt(-2.0 * log(1.0 - u));`. -/
def normalT (u : ℝ) : ℝ :=
  if u < 0.5 then Real.sqrt (-2 * Real.log u) else Real.sqrt (-2 * Real.log (1 - u))

/-- The argument handed to `log` inside `normal`: `u` on the `u < 0.5`
branch, `1 - u` otherwise. -/
def normalLogArg (u : ℝ) : ℝ :=
  if u < 0.5 then u else 1 - u

/-- Numerator polynomial of `normal`, Horner form (crandom.c line 291):
`p = p0 + t * (p1 + t * (p2 + t * (p3 + t * p4)));`. -/
def normalP (t : ℝ) : ℝ :=
  p0 + t * (p1 + t * (p2 + t * (p3 + t * p4)))

/-- Denominator polynomial of `normal`, Horner form (crandom.c line 292):
`q = q0 + t * (q1 + t * (q2 + t * (q3 + t * q4)));`. -/
def normalQ (t : ℝ) : ℝ :=
  q0 + t * (q1 + t * (q2 + t * (q3 + t * q4)))

/-- The `z` value of `normal` (crandom.c lines 293-296):
`if (u < 0.5) z = (p / q) - t; else z = t - (p / q);`. -/
def normalZ (u : ℝ) : ℝ :=
  if u < 0.5 then normalP (normalT u) / normalQ (normalT u) - normalT u
  else normalT u - normalP (normalT u) / normalQ (normalT u)

/-- Embedding of `normal` (crandom.c line 272): one draw, then
`return (m + s * z);`. -/
def normal (m sv : ℝ) (s : UStream) (c : ℕ) : ℝ × ℕ :=
  (m + sv * normalZ (s c), c + 1)

/-- Embedding of `lognormal` (crandom.c line 310):
`return (exp(a + b * normal(crandom, 0.0, 1.0)));`. -/
def lognormal (a b : ℝ) (s : UStream) (c : ℕ) : ℝ × ℕ :=
  (Real.exp (a + b * (normal 0 1 s c).1), (normal 0 1 s c).2)

/-- Loop body of `chisquare` (crandom.c lines 331-334):
`z = normal(crandom, 0.0, 1.0); x += z * z;` repeated. -/
def chisquareGo (s : UStream) : ℕ → ℕ → ℝ → ℝ × ℕ
  | 0, c, x => (x, c)
  | n + 1, c, x =>
      chisquareGo s n (normal 0 1 s c).2 (x + (normal 0 1 s c).1 * (normal 0 1 s c).1)

/-- Embedding of `chisquare` (crandom.c line 325). -/
def chisquare (n : ℕ) (s : UStream) (c : ℕ) : ℝ × ℕ :=
  chisquareGo s n c 0

/-- Embedding of `student` (crandom.c line 349):
`return (normal(crandom, 0.0, 1.0) / sqrt(chisquare(crandom, n) / n));`,
with the `normal` operand drawing first. -/
def student (n : ℕ) (s : UStream) (c : ℕ) : ℝ × ℕ :=
  ((normal 0 1 s c).1 /
      Real.sqrt ((chisquare n s (normal 0 1 s c).2).1 / (n : ℝ)),
    (chisquare n s (normal 0 1 s c).2).2)

end CRandom

/-- C1: `bernoulli` consumes exactly one draw and returns the integer 1
precisely when the draw is strictly greater than `p`, 0 otherwise: the
comparison direction `u > p` yielding 1 is the implemented behaviour. -/
theorem bernoulli_comparison_direction (p : ℝ) (s : CRandom.UStream) (c : ℕ)
    (hp0 : 0 < p) (hp1 : p < 1) (h0 : 0 ≤ s c) (h1 : s c < 1) :
    CRandom.bernoulli p s c = ((if s c > p then 1 else 0 : ℤ), c + 1) ∧
      (p < s c → (CRandom.bernoulli p s c).1 = 1) ∧
      (s c ≤ p → (CRandom.bernoulli p s c).1 = 0) := by
  refine ⟨rfl, fun h => ?_, fun h => ?_⟩
  · simp [CRandom.bernoulli, h]
  · simp [CRandom.bernoulli, not_lt.mpr h]

/-- Witness for C1 at `p = 1/2`, draw `3/4`: all hypotheses hold and the
sample is 1 with the cursor advanced by one. -/
theorem bernoulli_comparison_direction_w :
    (0 : ℝ) < 1 / 2 ∧ (1 / 2 : ℝ) < 1 ∧ (0 : ℝ) ≤ 3 / 4 ∧ (3 / 4 : ℝ) < 1 ∧
      (1 / 2 : ℝ) < 3 / 4 ∧
      (CRandom.bernoulli (1 / 2) (fun _ => (3 / 4 : ℝ)) 0).1 = 1 :=
  ⟨by norm_num, by norm_num, by norm_num, by norm_num, by norm_num,
    (bernoulli_comparison_direction (1 / 2) (fun _ => (3 / 4 : ℝ)) 0
      (by norm_num) (by norm_num) (by norm_num) (by norm_num)).2.1 (by norm_num)⟩

/-- The C truncation cast agrees with the floor on non-negative
arguments. -/
theorem cIntCast_of_nonneg (x : ℝ) (h : 0 ≤ x) : CRandom.cIntCast x = ⌊x⌋ := by
  simp only [CRandom.cIntCast]
  exact if_pos h

/-- Bounds for the floor appearing in `equilikely`: for a draw in `[0,1)`
the floor of `(b - a + 1) * u` lies in `[0, b - a]`. -/
theorem equilikely_floor_bounds (a b : ℤ) (u : ℝ) (hab : a < b) (h0 : 0 ≤ u)
    (h1 : u < 1) :
    0 ≤ ⌊((b - a + 1 : ℤ) : ℝ) * u⌋ ∧ ⌊((b - a + 1 : ℤ) : ℝ) * u⌋ < b - a + 1 := by
  have hn : (0 : ℤ) < b - a + 1 := by omega
  have hnR : (0 : ℝ) < ((b - a + 1 : ℤ) : ℝ) := by exact_mod_cast hn
  have harg : 0 ≤ ((b - a + 1 : ℤ) : ℝ) * u := mul_nonneg hnR.le h0
  refine ⟨Int.floor_nonneg.mpr harg, Int.floor_lt.mpr ?_⟩
  calc ((b - a + 1 : ℤ) : ℝ) * u < ((b - a + 1 : ℤ) : ℝ) * 1 :=
        mul_lt_mul_of_pos_left h1 hnR
    _ = ((b - a + 1 : ℤ) : ℝ) := mul_one _

/-- C6: `equilikely` consumes one draw, returns `a + floor((b-a+1)*u)`,
and that value lies in the closed interval `[a, b]`. -/
theorem equilikely_in_range (a b : ℤ) (s : CRandom.UStream) (c : ℕ)
    (hab : a < b) (h0 : 0 ≤ s c) (h1 : s c < 1) :
    CRandom.equilikely a b s c = (a + ⌊((b - a + 1 : ℤ) : ℝ) * s c⌋, c + 1) ∧
      a ≤ (CRandom.equilikely a b s c).1 ∧ (CRandom.equilikely a b s c).1 ≤ b := by
  have hn : (0 : ℤ) < b - a + 1 := by omega
  have hnR : (0 : ℝ) < ((b - a + 1 : ℤ) : ℝ) := by exact_mod_cast hn
  have harg : 0 ≤ ((b - a + 1 : ℤ) : ℝ) * s c := mul_nonneg hnR.le h0
  have hcast : CRandom.cIntCast (((b - a + 1 : ℤ) : ℝ) * s c) =
      ⌊((b - a + 1 : ℤ) : ℝ) * s c⌋ := cIntCast_of_nonneg _ harg
  obtain ⟨hlb, hub⟩ := equilikely_floor_bounds a b (s c) hab h0 h1
  refine ⟨?_, ?_, ?_⟩
  · show (a + CRandom.cIntCast (((b - a + 1 : ℤ) : ℝ) * s c), c + 1) = _
    rw [hcast]
  · show a ≤ a + CRandom.cIntCast (((b - a + 1 : ℤ) : ℝ) * s c)
    rw [hcast]
    omega
  · show a + CRandom.cIntCast (((b - a + 1 : ℤ) : ℝ) * s c) ≤ b
    rw [hcast]
    omega

/-- Witness for C6 at `a = 0`, `b = 9`, draw `1/2`: the sample is
`0 + floor(10 * (1/2))` and lies in `[0, 9]`. -/
theorem equilikely_in_range_w :
    (0 : ℤ) < 9 ∧ (0 : ℝ) ≤ 1 / 2 ∧ (1 / 2 : ℝ) < 1 ∧
      (0 : ℤ) ≤ (CRandom.equilikely 0 9 (fun _ => (1 / 2 : ℝ)) 0).1 ∧
      (CRandom.equilikely 0 9 (fun _ => (1 / 2 : ℝ)) 0).1 ≤ 9 :=
  ⟨by norm_num, by norm_num, by norm_num,
    (equilikely_in_range 0 9 (fun _ => (1 / 2 : ℝ)) 0 (by norm_num) (by norm_num)
      (by norm_num)).2.1,
    (equilikely_in_range 0 9 (fun _ => (1 / 2 : ℝ)) 0 (by norm_num) (by norm_num)
      (by norm_num)).2.2⟩

/-- C5 counterexample: the draw `u = 0` is allowed by the claim's range
`0 ≤ u < 1`, yet `exponential(1)` returns `-1 * log(1 - 0) = 0`, which is
not strictly positive. -/
theorem exponential_zero_draw_cex :
    (0 : ℝ) ≤ 0 ∧ (0 : ℝ) < 1 ∧
      (CRandom.exponential 1 (fun _ => (0 : ℝ)) 0).1 = 0 ∧
      ¬ 0 < (CRandom.exponential 1 (fun _ => (0 : ℝ)) 0).1 := by
  have hv : (CRandom.exponential 1 (fun _ => (0 : ℝ)) 0).1 = 0 := by
    simp [CRandom.exponential]
  exact ⟨le_refl 0, by norm_num, hv, by rw [hv]; exact lt_irrefl 0⟩

/-- C5 amended: for `m > 0` and a draw with `0 < u < 1`, `exponential`
returns a strictly positive value (at `u = 0` it returns exactly 0). -/
theorem exponential_pos_of_pos_draw (m : ℝ) (s : CRandom.UStream) (c : ℕ)
    (hm : 0 < m) (h0 : 0 < s c) (h1 : s c < 1) :
    0 < (CRandom.exponential m s c).1 := by
  have hlog : Real.log (1 - s c) < 0 :=
    Real.log_neg (by linarith) (by linarith)
  simp only [CRandom.exponential]
  nlinarith

/-- Witness for C5's amended claim at `m = 1`, draw `1/2`. -/
theorem exponential_pos_of_pos_draw_w :
    (0 : ℝ) < 1 ∧ (0 : ℝ) < 1 / 2 ∧ (1 / 2 : ℝ) < 1 ∧
      0 < (CRandom.exponential 1 (fun _ => (1 / 2 : ℝ)) 0).1 :=
  ⟨by norm_num, by norm_num, by norm_num,
    exponential_pos_of_pos_draw 1 (fun _ => (1 / 2 : ℝ)) 0 (by norm_num)
      (by norm_num) (by norm_num)⟩

namespace CRandom

/-- The numerator polynomial exactly as the spec writes its coefficients:
`p = (0.322232431088, 1.0, 0.342242088547, 0.0204231210245,
0.0000453642210148)`, evaluated in Horner form. -/
def specP (t : ℝ) : ℝ :=
  0.322232431088 +
    t * (1.0 + t * (0.342242088547 + t * (0.0204231210245 + t * 0.0000453642210148)))

/-- The denominator polynomial exactly as the spec writes its coefficients:
`q = (0.099348462606, 0.588581570495, 0.531103462366, 0.103537752850,
0.00385607006340)`, evaluated in Horner form. -/
def specQ (t : ℝ) : ℝ :=
  0.099348462606 +
    t * (0.588581570495 + t * (0.531103462366 + t * (0.103537752850 + t * 0.00385607006340)))

end CRandom

/-- The spec's decimal coefficients agree exactly with the source's
scientific-notation constants for the numerator polynomial. -/
theorem specP_eq_normalP (t : ℝ) : CRandom.specP t = CRandom.normalP t := by
  norm_num [CRandom.specP, CRandom.normalP, CRandom.p0, CRandom.p1, CRandom.p2,
    CRandom.p3, CRandom.p4]

/-- The spec's decimal coefficients agree exactly with the source's
scientific-notation constants for the denominator polynomial. -/
theorem specQ_eq_normalQ (t : ℝ) : CRandom.specQ t = CRandom.normalQ t := by
  norm_num [CRandom.specQ, CRandom.normalQ, CRandom.q0, CRandom.q1, CRandom.q2,
    CRandom.q3, CRandom.q4]

/-- C2: `normal` consumes exactly one draw and returns `m + s * z` where
`z` follows the Odeh-Evans inverse-CDF approximation with the claimed
coefficient sets: for `u < 0.5`, `t = sqrt(-2 ln u)` and
`z = P(t)/Q(t) - t`; for `u ≥ 0.5`, `t = sqrt(-2 ln(1-u))` and
`z = t - P(t)/Q(t)`. -/
theorem normal_odeh_evans (mv sv : ℝ) (s : CRandom.UStream) (c : ℕ)
    (hs : 0 < sv) (h0 : 0 ≤ s c) (h1 : s c < 1) :
    (CRandom.normal mv sv s c).2 = c + 1 ∧
      (s c < 0.5 →
        (CRandom.normal mv sv s c).1 =
          mv + sv * (CRandom.specP (Real.sqrt (-2 * Real.log (s c))) /
              CRandom.specQ (Real.sqrt (-2 * Real.log (s c))) -
            Real.sqrt (-2 * Real.log (s c)))) ∧
      (0.5 ≤ s c →
        (CRandom.normal mv sv s c).1 =
          mv + sv * (Real.sqrt (-2 * Real.log (1 - s c)) -
            CRandom.specP (Real.sqrt (-2 * Real.log (1 - s c))) /
              CRandom.specQ (Real.sqrt (-2 * Real.log (1 - s c))))) := by
  refine ⟨rfl, fun h => ?_, fun h => ?_⟩
  · show mv + sv * CRandom.normalZ (s c) = _
    rw [CRandom.normalZ, CRandom.normalT, if_pos h, if_pos h,
      specP_eq_normalP, specQ_eq_normalQ]
  · have h' : ¬ s c < 0.5 := not_lt.mpr h
    show mv + sv * CRandom.normalZ (s c) = _
    rw [CRandom.normalZ, CRandom.normalT, if_neg h', if_neg h',
      specP_eq_normalP, specQ_eq_normalQ]

/-- Witness for C2 at `m = 0`, `s = 1`, draw `1/4` (the `u < 0.5`
branch). -/
theorem normal_odeh_evans_w :
    (0 : ℝ) < 1 ∧ (0 : ℝ) ≤ 1 / 4 ∧ (1 / 4 : ℝ) < 1 ∧ (1 / 4 : ℝ) < 0.5 ∧
      (CRandom.normal 0 1 (fun _ => (1 / 4 : ℝ)) 0).2 = 0 + 1 ∧
      (CRandom.normal 0 1 (fun _ => (1 / 4 : ℝ)) 0).1 =
        0 + 1 * (CRandom.specP (Real.sqrt (-2 * Real.log (1 / 4))) /
            CRandom.specQ (Real.sqrt (-2 * Real.log (1 / 4))) -
          Real.sqrt (-2 * Real.log (1 / 4))) :=
  ⟨by norm_num, by norm_num, by norm_num, by norm_num,
    (normal_odeh_evans 0 1 (fun _ => (1 / 4 : ℝ)) 0 (by norm_num) (by norm_num)
      (by norm_num)).1,
    (normal_odeh_evans 0 1 (fun _ => (1 / 4 : ℝ)) 0 (by norm_num) (by norm_num)
      (by norm_num)).2.1 (by norm_num)⟩

/-- The inlined pascal loop with `log_p = log p` threaded through agrees,
iteration by iteration, with summing successive `geometric` calls. -/
theorem pascalGo_eq_geometricIter (p : ℝ) (s : CRandom.UStream) :
    ∀ (n c : ℕ) (x : ℤ),
      CRandom.pascalGo (Real.log p) s n c x =
        (x + (CRandom.geometricIter n p s c).1, (CRandom.geometricIter n p s c).2) := by
  intro n
  induction n with
  | zero =>
      intro c x
      simp [CRandom.pascalGo, CRandom.geometricIter]
  | succ n ih =>
      intro c x
      simp only [CRandom.pascalGo, CRandom.geometricIter, CRandom.geometric, ih,
        Prod.mk.injEq]
      exact ⟨by ring, trivial⟩

/-- C7: `pascal(n, p)` returns the same value and consumes the same draws
as summing `n` successive `geometric(p)` calls on the same stream. -/
theorem pascal_refines_geometric (n : ℕ) (p : ℝ) (s : CRandom.UStream) (c : ℕ)
    (hn : 0 < n) (hp0 : 0 < p) (hp1 : p < 1) :
    CRandom.pascal n p s c = CRandom.geometricIter n p s c := by
  have h := pascalGo_eq_geometricIter p s n c 0
  simpa [CRandom.pascal] using h

/-- Witness for C7 at `n = 2`, `p = 1/2`, the constant `1/2` stream. -/
theorem pascal_refines_geometric_w :
    (0 : ℕ) < 2 ∧ (0 : ℝ) < 1 / 2 ∧ (1 / 2 : ℝ) < 1 ∧
      CRandom.pascal 2 (1 / 2) (fun _ => (1 / 2 : ℝ)) 0 =
        CRandom.geometricIter 2 (1 / 2) (fun _ => (1 / 2 : ℝ)) 0 :=
  ⟨by norm_num, by norm_num, by norm_num,
    pascal_refines_geometric 2 (1 / 2) (fun _ => (1 / 2 : ℝ)) 0 (by norm_num)
      (by norm_num) (by norm_num)⟩

/-- If the accumulator first reaches `m` after exactly `k` draws, the
Poisson loop runs `k` iterations from any start state, incrementing the
counter and the cursor once per iteration. -/
theorem poissonGo_cross (m : ℝ) (s : CRandom.UStream) :
    ∀ (k : ℕ) (t : ℝ) (x : ℤ) (c : ℕ),
      (∀ j < k, t + CRandom.poissonAcc m s c j < m) →
      m ≤ t + CRandom.poissonAcc m s c k →
      CRandom.PoissonGo m s k t x c = some (x + k, c + k) := by
  intro k
  induction k with
  | zero =>
      intro t x c hmin hcross
      have ht : ¬ t < m := by
        simp only [CRandom.poissonAcc, add_zero] at hcross
        exact not_lt.mpr hcross
      simp [CRandom.PoissonGo, ht]
  | succ k ih =>
      intro t x c hmin hcross
      have ht : t < m := by
        have h := hmin 0 (Nat.succ_pos k)
        simpa [CRandom.poissonAcc] using h
      have step : ∀ j, t + CRandom.poissonAcc m s c (j + 1) =
          (t - m * Real.log (1 - s c)) + CRandom.poissonAcc m s (c + 1) j := by
        intro j
        simp only [CRandom.poissonAcc]
        ring
      have hmin' : ∀ j < k,
          (t - m * Real.log (1 - s c)) + CRandom.poissonAcc m s (c + 1) j < m := by
        intro j hj
        have h := hmin (j + 1) (by omega)
        linarith [step j]
      have hcross' :
          m ≤ (t - m * Real.log (1 - s c)) + CRandom.poissonAcc m s (c + 1) k := by
        linarith [step k]
      have h := ih (t - m * Real.log (1 - s c)) (x + 1) (c + 1) hmin' hcross'
      simp only [CRandom.PoissonGo, if_pos ht, h, Option.some.injEq, Prod.mk.injEq]
      exact ⟨by push_cast; ring, by omega⟩

/-- C3: with the counter starting at -1 and the accumulator at 0, the
Poisson loop draws once, adds `-m*log(1-u)` and increments the counter
each iteration (including the crossing one); when the accumulator first
reaches `m` after `k` draws, the returned value is `k - 1` and `k` draws
were consumed. -/
theorem Poisson_loop_semantics (m : ℝ) (s : CRandom.UStream) (c k : ℕ)
    (hm : 0 < m) (hmin : ∀ j < k, CRandom.poissonAcc m s c j < m)
    (hcross : m ≤ CRandom.poissonAcc m s c k) :
    CRandom.Poisson k m s c = CRandom.PoissonGo m s k 0 (-1) c ∧
      CRandom.Poisson k m s c = some ((k : ℤ) - 1, c + k) := by
  refine ⟨rfl, ?_⟩
  have h := poissonGo_cross m s k 0 (-1) c
    (by intro j hj; simpa using hmin j hj) (by simpa using hcross)
  show CRandom.PoissonGo m s k 0 (-1) c = some ((k : ℤ) - 1, c + k)
  rw [h]
  simp only [Option.some.injEq, Prod.mk.injEq]
  exact ⟨by ring, trivial⟩

/-- A concrete witness stream whose every draw is `1 - exp(-2)`, so each
Poisson step adds exactly `2m` to the accumulator. -/
def sW : CRandom.UStream := fun _ => 1 - Real.exp (-2)

/-- Witness for C3 at `m = 1` on the `sW` stream: the accumulator crosses
on the first draw, so the loop runs once and returns `0` having consumed
one draw. -/
theorem Poisson_loop_semantics_w :
    (0 : ℝ) < 1 ∧ CRandom.Poisson 1 1 sW 0 = some ((1 : ℤ) - 1, 0 + 1) := by
  have hmin : ∀ j < 1, CRandom.poissonAcc 1 sW 0 j < 1 := by
    intro j hj
    interval_cases j
    norm_num [CRandom.poissonAcc]
  have hcross : (1 : ℝ) ≤ CRandom.poissonAcc 1 sW 0 1 := by
    simp only [CRandom.poissonAcc, sW, sub_sub_cancel, Real.log_exp]
    norm_num
  exact ⟨by norm_num, (Poisson_loop_semantics 1 sW 0 1 (by norm_num) hmin hcross).2⟩

/-- On the constant-zero stream each iteration adds
`-m * log(1 - 0) = 0`, so the Poisson loop never reaches `m = 1`: no
amount of fuel makes it return. -/
theorem poissonGo_zero_stream_none :
    ∀ (fuel : ℕ) (x : ℤ) (c : ℕ),
      CRandom.PoissonGo 1 (fun _ => (0 : ℝ)) fuel 0 x c = none := by
  intro fuel
  induction fuel with
  | zero =>
      intro x c
      norm_num [CRandom.PoissonGo]
  | succ fuel ih =>
      intro x c
      have h01 : (0 : ℝ) < 1 := one_pos
      simp only [CRandom.PoissonGo, if_pos h01]
      simpa using ih (x + 1) (c + 1)

/-- C8 counterexample: the all-zeros stream has every draw inside `[0,1)`
yet `Poisson` with `m = 1` never terminates on it: the loop returns no
result for any number of iterations. -/
theorem Poisson_zero_stream_cex :
    (0 : ℝ) ≤ 0 ∧ (0 : ℝ) < 1 ∧
      ¬ ∃ (fuel : ℕ) (r : ℤ × ℕ),
          CRandom.Poisson fuel 1 (fun _ => (0 : ℝ)) 0 = some r := by
  refine ⟨le_refl 0, by norm_num, ?_⟩
  rintro ⟨fuel, r, hr⟩
  have h := poissonGo_zero_stream_none fuel (-1) 0
  rw [CRandom.Poisson, h] at hr
  exact Option.noConfusion hr

/-- C8 amended: if every draw of the stream lies in `[δ, 1)` for some
`δ > 0`, each iteration adds at least `-m*log(1-δ) > 0`, so the Poisson
loop terminates after finitely many iterations. -/
theorem Poisson_terminates_of_bounded_draws (m δ : ℝ) (s : CRandom.UStream)
    (hm : 0 < m) (hδ : 0 < δ) (hlow : ∀ i, δ ≤ s i) (hup : ∀ i, s i < 1) :
    ∃ (fuel : ℕ) (x : ℤ) (c' : ℕ), CRandom.Poisson fuel m s 0 = some (x, c') := by
  classical
  have hδ1 : δ < 1 := lt_of_le_of_lt (hlow 0) (hup 0)
  have hlogδ : Real.log (1 - δ) < 0 := Real.log_neg (by linarith) (by linarith)
  have hc0pos : 0 < -(m * Real.log (1 - δ)) := by nlinarith
  have hstep : ∀ c : ℕ, -(m * Real.log (1 - δ)) ≤ -(m * Real.log (1 - s c)) := by
    intro c
    have h1 : (0 : ℝ) < 1 - s c := by have := hup c; linarith
    have h2 : 1 - s c ≤ 1 - δ := by have := hlow c; linarith
    have h3 : Real.log (1 - s c) ≤ Real.log (1 - δ) :=
      (Real.log_le_log_iff h1 (by linarith)).mpr h2
    nlinarith
  have hacc : ∀ (k c : ℕ), (k : ℝ) * -(m * Real.log (1 - δ)) ≤
      CRandom.poissonAcc m s c k := by
    intro k
    induction k with
    | zero =>
        intro c
        simp [CRandom.poissonAcc]
    | succ k ih =>
        intro c
        have h1 := hstep c
        have h2 := ih (c + 1)
        have hexpand : ((k : ℝ) + 1) * -(m * Real.log (1 - δ)) =
            (k : ℝ) * -(m * Real.log (1 - δ)) + -(m * Real.log (1 - δ)) := by ring
        simp only [CRandom.poissonAcc]
        push_cast
        linarith [hexpand]
  obtain ⟨n, hn⟩ := exists_nat_ge (m / -(m * Real.log (1 - δ)))
  have hm_le : m ≤ (n : ℝ) * -(m * Real.log (1 - δ)) := by
    rw [div_le_iff₀ hc0pos] at hn
    linarith
  have hex : ∃ k, m ≤ CRandom.poissonAcc m s 0 k :=
    ⟨n, le_trans hm_le (hacc n 0)⟩
  have hk0 : m ≤ CRandom.poissonAcc m s 0 (Nat.find hex) := Nat.find_spec hex
  have hk0min : ∀ j < Nat.find hex, CRandom.poissonAcc m s 0 j < m := by
    intro j hj
    exact not_le.mp (Nat.find_min hex hj)
  refine ⟨Nat.find hex, (Nat.find hex : ℤ) - 1, 0 + Nat.find hex, ?_⟩
  have h := poissonGo_cross m s (Nat.find hex) 0 (-1) 0
    (by intro j hj; simpa using hk0min j hj) (by simpa using hk0)
  show CRandom.PoissonGo m s (Nat.find hex) 0 (-1) 0 =
    some ((Nat.find hex : ℤ) - 1, 0 + Nat.find hex)
  rw [h]
  simp only [Option.some.injEq, Prod.mk.injEq]
  exact ⟨by ring, trivial⟩

/-- Witness for C8's amended claim: on the `sW` stream every draw equals
`1 - exp(-2)`, which is bounded below by itself and strictly below 1, so
the loop terminates. -/
theorem Poisson_terminates_of_bounded_draws_w :
    (0 : ℝ) < 1 ∧ (0 : ℝ) < 1 - Real.exp (-2) ∧
      ∃ (fuel : ℕ) (x : ℤ) (c' : ℕ), CRandom.Poisson fuel 1 sW 0 = some (x, c') := by
  have hδ : (0 : ℝ) < 1 - Real.exp (-2) := by
    have := Real.exp_lt_one_iff.mpr (show (-2 : ℝ) < 0 by norm_num)
    linarith
  refine ⟨by norm_num, hδ, ?_⟩
  exact Poisson_terminates_of_bounded_draws 1 (1 - Real.exp (-2)) sW (by norm_num)
    hδ (fun i => le_refl _) (fun i => by have := Real.exp_pos (-2); simp only [sW]; linarith)

/-- The binomial loop advances the cursor once per iteration. -/
theorem binomialGo_cursor (p : ℝ) (s : CRandom.UStream) :
    ∀ (n c : ℕ) (x : ℤ), (CRandom.binomialGo p s n c x).2 = c + n := by
  intro n
  induction n with
  | zero => intro c x; simp [CRandom.binomialGo]
  | succ n ih =>
      intro c x
      simp only [CRandom.binomialGo, ih]
      omega

/-- The pascal loop advances the cursor once per iteration. -/
theorem pascalGo_cursor (lp : ℝ) (s : CRandom.UStream) :
    ∀ (n c : ℕ) (x : ℤ), (CRandom.pascalGo lp s n c x).2 = c + n := by
  intro n
  induction n with
  | zero => intro c x; simp [CRandom.pascalGo]
  | succ n ih =>
      intro c x
      simp only [CRandom.pascalGo, ih]
      omega

/-- The erlang loop advances the cursor once per iteration. -/
theorem erlangGo_cursor (b : ℝ) (s : CRandom.UStream) :
    ∀ (n c : ℕ) (x : ℝ), (CRandom.erlangGo b s n c x).2 = c + n := by
  intro n
  induction n with
  | zero => intro c x; simp [CRandom.erlangGo]
  | succ n ih =>
      intro c x
      simp only [CRandom.erlangGo, ih]
      omega

/-- The chisquare loop draws one normal sample per iteration. -/
theorem chisquareGo_cursor (s : CRandom.UStream) :
    ∀ (n c : ℕ) (x : ℝ), (CRandom.chisquareGo s n c x).2 = c + n := by
  intro n
  induction n with
  | zero => intro c x; simp [CRandom.chisquareGo]
  | succ n ih =>
      intro c x
      simp only [CRandom.chisquareGo, CRandom.normal, ih]
      omega

/-- Inside the Poisson loop the counter and the cursor advance in
lockstep: a successful run increments each once per iteration. -/
theorem poissonGo_count (m : ℝ) (s : CRandom.UStream) :
    ∀ (fuel : ℕ) (t : ℝ) (x : ℤ) (c : ℕ) (y : ℤ) (c' : ℕ),
      CRandom.PoissonGo m s fuel t x c = some (y, c') →
      y - x = (c' : ℤ) - c ∧ c ≤ c' := by
  intro fuel
  induction fuel with
  | zero =>
      intro t x c y c' h
      simp only [CRandom.PoissonGo] at h
      split_ifs at h
      obtain ⟨rfl, rfl⟩ := Prod.mk.injEq .. ▸ Option.some.injEq .. ▸ h
      · constructor
        · ring
        · exact le_refl c
  | succ fuel ih =>
      intro t x c y c' h
      simp only [CRandom.PoissonGo] at h
      split_ifs at h with ht
      · obtain ⟨h1, h2⟩ := ih _ _ _ _ _ h
        constructor
        · push_cast at h1 ⊢
          linarith
        · omega
      · obtain ⟨rfl, rfl⟩ := Prod.mk.injEq .. ▸ Option.some.injEq .. ▸ h
        constructor
        · ring
        · exact le_refl c

/-- C9: every sampler advances the cursor by a count fixed by its
parameters alone: one draw for bernoulli, equilikely, geometric, uniform,
exponential, normal and lognormal; `n` draws for binomial, pascal, erlang
and chisquare; `n + 1` for student; and a successful `Poisson` run that
returns `x` consumed exactly `x + 1` draws. -/
theorem draw_counts (p av bv mv sv : ℝ) (aI bI : ℤ) (n fuel : ℕ)
    (s : CRandom.UStream) (c : ℕ) (x : ℤ) (c2 : ℕ) :
    (CRandom.bernoulli p s c).2 = c + 1 ∧
      (CRandom.equilikely aI bI s c).2 = c + 1 ∧
      (CRandom.geometric p s c).2 = c + 1 ∧
      (CRandom.uniform av bv s c).2 = c + 1 ∧
      (CRandom.exponential mv s c).2 = c + 1 ∧
      (CRandom.normal mv sv s c).2 = c + 1 ∧
      (CRandom.lognormal av bv s c).2 = c + 1 ∧
      (CRandom.binomial n p s c).2 = c + n ∧
      (CRandom.pascal n p s c).2 = c + n ∧
      (CRandom.erlang n bv s c).2 = c + n ∧
      (CRandom.chisquare n s c).2 = c + n ∧
      (CRandom.student n s c).2 = c + (n + 1) ∧
      (CRandom.Poisson fuel mv s c = some (x, c2) → (c2 : ℤ) = c + (x + 1)) := by
  have hPoisson : CRandom.Poisson fuel mv s c = some (x, c2) →
      (c2 : ℤ) = c + (x + 1) := by
    intro hP
    obtain ⟨h1, h2⟩ := poissonGo_count mv s fuel 0 (-1) c x c2 hP
    linarith
  refine ⟨rfl, rfl, rfl, rfl, rfl, rfl, rfl, ?_, ?_, ?_, ?_, ?_, hPoisson⟩
  · exact binomialGo_cursor p s n c 0
  · exact pascalGo_cursor (Real.log p) s n c 0
  · exact erlangGo_cursor bv s n c 0
  · exact chisquareGo_cursor s n c 0
  · show (CRandom.chisquare n s (CRandom.normal 0 1 s c).2).2 = c + (n + 1)
    have h := chisquareGo_cursor s n (c + 1) 0
    show (CRandom.chisquareGo s n (c + 1) 0).2 = c + (n + 1)
    omega

/-- Witness for C9 on the `sW` stream with `n = 2`: the Poisson premise
holds with `x = 0` after one draw, and every fixed-count clause holds at
cursor 0. -/
theorem draw_counts_w :
    (CRandom.bernoulli (1 / 2) sW 0).2 = 0 + 1 ∧
      (CRandom.equilikely 0 9 sW 0).2 = 0 + 1 ∧
      (CRandom.geometric (1 / 2) sW 0).2 = 0 + 1 ∧
      (CRandom.uniform 0 1 sW 0).2 = 0 + 1 ∧
      (CRandom.exponential 1 sW 0).2 = 0 + 1 ∧
      (CRandom.normal 1 1 sW 0).2 = 0 + 1 ∧
      (CRandom.lognormal 0 1 sW 0).2 = 0 + 1 ∧
      (CRandom.binomial 2 (1 / 2) sW 0).2 = 0 + 2 ∧
      (CRandom.pascal 2 (1 / 2) sW 0).2 = 0 + 2 ∧
      (CRandom.erlang 2 1 sW 0).2 = 0 + 2 ∧
      (CRandom.chisquare 2 sW 0).2 = 0 + 2 ∧
      (CRandom.student 2 sW 0).2 = 0 + (2 + 1) ∧
      ((1 : ℕ) : ℤ) = (0 : ℕ) + ((0 : ℤ) + 1) := by
  have hP : CRandom.Poisson 1 1 sW 0 = some (0, 1) := by
    show CRandom.PoissonGo 1 sW 1 0 (-1) 0 = some (0, 1)
    rw [CRandom.PoissonGo, if_pos (show (0 : ℝ) < 1 by norm_num)]
    have ht : (0 : ℝ) - 1 * Real.log (1 - sW 0) = 2 := by
      simp [sW, sub_sub_cancel, Real.log_exp]
    rw [ht, CRandom.PoissonGo, if_neg (by norm_num)]
    norm_num
  obtain ⟨h1, h2, h3, h4, h5, h6, h7, h8, h9, h10, h11, h12, h13⟩ :=
    draw_counts (1 / 2) 0 1 1 1 0 9 2 1 sW 0 0 1
  exact ⟨h1, h2, h3, h4, h5, h6, h7, h8, h9, h10, h11, h12, h13 hP⟩

/-- `t` in `normal` is a square root on both branches, hence
non-negative. -/
theorem normalT_nonneg (u : ℝ) : 0 ≤ CRandom.normalT u := by
  by_cases h : u < 0.5 <;> simp [CRandom.normalT, h, Real.sqrt_nonneg]

/-- The Horner denominator of `normal` is strictly positive whenever
`t ≥ 0`, since all five coefficients are positive. -/
theorem normalQ_pos (t : ℝ) (ht : 0 ≤ t) : 0 < CRandom.normalQ t := by
  simp only [CRandom.normalQ, CRandom.q0, CRandom.q1, CRandom.q2, CRandom.q3,
    CRandom.q4]
  have i3 : (0 : ℝ) ≤ 0.103537752850 + t * 0.385607006340e-2 := by nlinarith
  have h3 : (0 : ℝ) ≤ t * (0.103537752850 + t * 0.385607006340e-2) :=
    mul_nonneg ht i3
  have i2 : (0 : ℝ) ≤ 0.531103462366 + t * (0.103537752850 + t * 0.385607006340e-2) := by
    linarith
  have h2 : (0 : ℝ) ≤
      t * (0.531103462366 + t * (0.103537752850 + t * 0.385607006340e-2)) :=
    mul_nonneg ht i2
  have i1 : (0 : ℝ) ≤ 0.588581570495 +
      t * (0.531103462366 + t * (0.103537752850 + t * 0.385607006340e-2)) := by
    linarith
  have h1 : (0 : ℝ) ≤ t * (0.588581570495 +
      t * (0.531103462366 + t * (0.103537752850 + t * 0.385607006340e-2))) :=
    mul_nonneg ht i1
  linarith

/-- C10: for any draw with `0 < u < 1` the logarithm inside `normal`
receives the strictly positive argument `normalLogArg u`, the square-root
argument `-2 log(...)` is non-negative, and the Horner divisor `q` is
nonzero; the draw `u = 0`, which the `next()` contract permits, takes the
`u < 0.5` branch where the log argument is exactly 0. -/
theorem normal_log_sqrt_div_safety :
    (∀ u : ℝ, CRandom.normalT u = Real.sqrt (-2 * Real.log (CRandom.normalLogArg u))) ∧
      (∀ u : ℝ, 0 < u → u < 1 →
        0 < CRandom.normalLogArg u ∧
          0 ≤ -2 * Real.log (CRandom.normalLogArg u) ∧
          CRandom.normalQ (CRandom.normalT u) ≠ 0) ∧
      ((0 : ℝ) < 0.5 ∧ CRandom.normalLogArg 0 = 0) := by
  refine ⟨?_, ?_, by norm_num, by norm_num [CRandom.normalLogArg]⟩
  · intro u
    by_cases h : u < 0.5 <;> simp [CRandom.normalT, CRandom.normalLogArg, h]
  · intro u h0 h1
    have harg_pos : 0 < CRandom.normalLogArg u := by
      by_cases h : u < 0.5
      · simpa [CRandom.normalLogArg, h] using h0
      · simp only [CRandom.normalLogArg, if_neg h]
        linarith
    have harg_le1 : CRandom.normalLogArg u ≤ 1 := by
      by_cases h : u < 0.5
      · simp only [CRandom.normalLogArg, if_pos h]
        linarith
      · simp only [CRandom.normalLogArg, if_neg h]
        linarith
    have hlog : Real.log (CRandom.normalLogArg u) ≤ 0 :=
      Real.log_nonpos harg_pos.le harg_le1
    exact ⟨harg_pos, by linarith, ne_of_gt (normalQ_pos _ (normalT_nonneg u))⟩

/-- Witness for C10 at the draw `u = 1/4`: the hypotheses hold and the
three safety facts follow. -/
theorem normal_log_sqrt_div_safety_w :
    (0 : ℝ) < 1 / 4 ∧ (1 / 4 : ℝ) < 1 ∧
      (0 < CRandom.normalLogArg (1 / 4) ∧
        0 ≤ -2 * Real.log (CRandom.normalLogArg (1 / 4)) ∧
        CRandom.normalQ (CRandom.normalT (1 / 4)) ≠ 0) :=
  ⟨by norm_num, by norm_num,
    normal_log_sqrt_div_safety.2.1 (1 / 4) (by norm_num) (by norm_num)⟩

namespace CRandom

/-- Modelled from the spec: the vendored dSFMT engine itself is out of
scope (only `dSFMT.h` is in the tree); per the spec its surface is
`init_by_seed(seed) -> internal state` and `next_double(state) -> double
in [0,1)`, both deterministic pure state transformers.  We model an
arbitrary such engine as a state type with an `init` function and a
`nextDouble` function returning the draw and the advanced state. -/
structure UniformEngine (σ : Type) where
  init : ℤ → σ
  nextDouble : σ → ℝ × σ

/-- The engine state after `n` draws from a start state. -/
def engineStates {σ : Type} (e : UniformEngine σ) (st : σ) : ℕ → σ
  | 0 => st
  | n + 1 => (e.nextDouble (engineStates e st n)).2

/-- The stream of draws an engine emits from a start state. -/
def engineStream {σ : Type} (e : UniformEngine σ) (st : σ) : UStream :=
  fun n => (e.nextDouble (engineStates e st n)).1

/-- Embedding of `dSFMTRandomNewBySeed` (crandom.c line 46): a fresh
source whose engine state is seeded by `dsfmt_init_gen_rand` and whose
`next` delegates to the engine; as a stream-and-cursor pair this is the
engine stream from the seeded state with the cursor at 0. -/
def dSFMTRandomNewBySeed {σ : Type} (e : UniformEngine σ) (seed : ℤ) :
    UStream × ℕ :=
  (engineStream e (e.init seed), 0)

/-- One distribution call of the public API, with its parameters. -/
inductive DistCall where
  | bern (p : ℝ)
  | binom (n : ℕ) (p : ℝ)
  | equi (a b : ℤ)
  | geom (p : ℝ)
  | pasc (n : ℕ) (p : ℝ)
  | poisson (fuel : ℕ) (m : ℝ)
  | unif (a b : ℝ)
  | expo (m : ℝ)
  | erl (n : ℕ) (b : ℝ)
  | norm (m s : ℝ)
  | logn (a b : ℝ)
  | chisq (n : ℕ)
  | stud (n : ℕ)

/-- Run one distribution call against a source at a cursor: the sample
(as a real; `none` if a `Poisson` loop ran out of fuel) and the new
cursor. -/
def runCall (s : UStream) (c : ℕ) : DistCall → Option ℝ × ℕ
  | .bern p => (some ((bernoulli p s c).1 : ℝ), (bernoulli p s c).2)
  | .binom n p => (some ((binomial n p s c).1 : ℝ), (binomial n p s c).2)
  | .equi a b => (some ((equilikely a b s c).1 : ℝ), (equilikely a b s c).2)
  | .geom p => (some ((geometric p s c).1 : ℝ), (geometric p s c).2)
  | .pasc n p => (some ((pascal n p s c).1 : ℝ), (pascal n p s c).2)
  | .poisson fuel m =>
      match Poisson fuel m s c with
      | some (x, c') => (some (x : ℝ), c')
      | none => (none, c)
  | .unif a b => (some (uniform a b s c).1, (uniform a b s c).2)
  | .expo m => (some (exponential m s c).1, (exponential m s c).2)
  | .erl n b => (some (erlang n b s c).1, (erlang n b s c).2)
  | .norm m sv => (some (normal m sv s c).1, (normal m sv s c).2)
  | .logn a b => (some (lognormal a b s c).1, (lognormal a b s c).2)
  | .chisq n => (some (chisquare n s c).1, (chisquare n s c).2)
  | .stud n => (some (student n s c).1, (student n s c).2)

/-- Run a sequence of distribution calls against one source, threading
the cursor; the result is the sequence of samples. -/
def runCalls (s : UStream) (c : ℕ) : List DistCall → List (Option ℝ)
  | [] => []
  | call :: rest => (runCall s c call).1 :: runCalls s (runCall s c call).2 rest

end CRandom

/-- C4: two sources built by `dSFMTRandomNewBySeed` from the same seed
and subjected to the same sequence of distribution calls yield identical
sample sequences: the outputs are a function of the seed and the call
sequence only. -/
theorem seed_call_sequence_determinism {σ : Type} (e : CRandom.UniformEngine σ)
    (seed : ℤ) (cs : List CRandom.DistCall) (src1 src2 : CRandom.UStream × ℕ)
    (h1 : src1 = CRandom.dSFMTRandomNewBySeed e seed)
    (h2 : src2 = CRandom.dSFMTRandomNewBySeed e seed) :
    CRandom.runCalls src1.1 src1.2 cs = CRandom.runCalls src2.1 src2.2 cs := by
  subst h1
  subst h2
  rfl

/-- A tiny concrete engine: the state is a counter and the draw at state
`n` is `1 / (n + 2)`. -/
def natEngine : CRandom.UniformEngine ℕ :=
  ⟨fun z => z.toNat, fun n => (1 / ((n : ℝ) + 2), n + 1)⟩

/-- Witness for C4: two sources seeded with 42 on the concrete counter
engine produce the same samples for a concrete two-call sequence. -/
theorem seed_call_sequence_determinism_w :
    CRandom.runCalls (CRandom.dSFMTRandomNewBySeed natEngine 42).1
        (CRandom.dSFMTRandomNewBySeed natEngine 42).2
        [CRandom.DistCall.bern (1 / 2), CRandom.DistCall.expo 1] =
      CRandom.runCalls (CRandom.dSFMTRandomNewBySeed natEngine 42).1
        (CRandom.dSFMTRandomNewBySeed natEngine 42).2
        [CRandom.DistCall.bern (1 / 2), CRandom.DistCall.expo 1] :=
  seed_call_sequence_determinism natEngine 42
    [CRandom.DistCall.bern (1 / 2), CRandom.DistCall.expo 1]
    (CRandom.dSFMTRandomNewBySeed natEngine 42)
    (CRandom.dSFMTRandomNewBySeed natEngine 42) rfl rfl
